import Mathlib

/-!
Verification of the docker executor of girder_worker
(src/girder_worker/plugins/docker/executor.py) against its
natural-language specification.

The executor is shallowly embedded: each Python function becomes an
executable Lean definition over explicit data.  Python dictionaries
become association lists (`List (String × _)`) in iteration order,
Python exceptions become an explicit `DockerError` value carried by
`Except` (or returned next to the final state), and the external world
(subprocesses, the filesystem, the config store) is a record of
parameters supplied by the caller.  The Python standard-library string
and path functions used by the executor (`str.replace`, `str.split`,
`str.strip`, `str.startswith`, `os.path.join`, `os.path.relpath`) are
modelled character-by-character below; `os.path.relpath` is modelled
for absolute arguments, which is the only way the executor uses it.
-/

deriving instance DecidableEq for Except

namespace GWDocker

/-! ## Python string/path primitives -/

/-- Model of Python `s.split(sep)` for a one-character separator,
working on the character list of the string. -/
def splitChar (sep : Char) : List Char → List (List Char)
  | [] => [[]]
  | c :: cs =>
    let r := splitChar sep cs
    if c = sep then [] :: r
    else
      match r with
      | g :: gs => (c :: g) :: gs
      | [] => [[c]]

/-- Join character-list components with a one-character separator
(inverse of `splitChar`; model of `sep.join`). -/
def joinChar (sep : Char) : List (List Char) → List Char
  | [] => []
  | [g] => g
  | g :: gs => g ++ sep :: joinChar sep gs

/-- One step of the lexical path normalisation performed by
`posixpath.normpath` on the component list of an absolute path:
empty and `.` components vanish, `..` removes the previous component. -/
def normStep (acc : List (List Char)) (comp : List Char) : List (List Char) :=
  if comp = [] ∨ comp = ['.'] then acc
  else if comp = ['.', '.'] then acc.dropLast
  else acc ++ [comp]

/-- Component list of `posixpath.abspath` for an absolute path:
split on `/` and normalise. -/
def normParts (l : List (List Char)) : List (List Char) :=
  l.foldl normStep []

/-- Length of the longest common prefix of two component lists
(model of `os.path.commonprefix` on lists). -/
def commonPrefixLen : List (List Char) → List (List Char) → Nat
  | a :: as, b :: bs => if a = b then commonPrefixLen as bs + 1 else 0
  | _, _ => 0

/-- Model of `os.path.relpath(path, start)` for absolute `path` and
`start`, following CPython's `posixpath.relpath`: compare the
normalised component lists, emit `..` for the unshared components of
`start`, then the unshared components of `path`. -/
def relpathL (path start : List Char) : List Char :=
  let pl := normParts (splitChar '/' path)
  let sl := normParts (splitChar '/' start)
  let i := commonPrefixLen pl sl
  let rel := List.replicate (sl.length - i) ['.', '.'] ++ pl.drop i
  if rel = [] then ['.'] else joinChar '/' rel

/-- Model of `os.path.join(a, b)` (two arguments, POSIX rules) on
character lists. -/
def pyJoinL (a b : List Char) : List Char :=
  if b.head? = some '/' then b
  else if a = [] ∨ a.getLast? = some '/' then a ++ b
  else a ++ '/' :: b

/-- Model of `os.path.join(a, b)` on strings. -/
def pyJoin (a b : String) : String := String.mk (pyJoinL a.data b.data)

/-- Model of `os.path.relpath(path, start)` on strings. -/
def relpath (path start : String) : String := String.mk (relpathL path.data start.data)

/-- Fuelled worker for Python `s.replace(old, new)`: replace every
non-overlapping occurrence of `old`, scanning left to right.  Each
step consumes at least one character when `old` is non-empty, so
`s.length` fuel computes the full replacement (the executor only
replaces non-empty placeholder strings). -/
def replaceAllAux (old new : List Char) : Nat → List Char → List Char
  | _, [] => []
  | 0, s => s
  | fuel + 1, c :: cs =>
    if old ≠ [] ∧ old.isPrefixOf (c :: cs) then
      new ++ replaceAllAux old new fuel ((c :: cs).drop old.length)
    else c :: replaceAllAux old new fuel cs

/-- Model of Python `s.replace(old, new)` on strings. -/
def pyReplace (s old new : String) : String :=
  String.mk (replaceAllAux old.data new.data s.data.length s.data)

/-- Model of Python `s.replace(old, new, 1)`: replace only the first
occurrence of `old`. -/
def replaceFirstL (old new : List Char) : List Char → List Char
  | [] => if old = [] then new else []
  | c :: cs =>
    if old.isPrefixOf (c :: cs) then new ++ (c :: cs).drop old.length
    else c :: replaceFirstL old new cs

/-- Model of Python `s.replace(old, new, 1)` on strings. -/
def pyReplaceFirst (s old new : String) : String :=
  String.mk (replaceFirstL old.data new.data s.data)

/-- ASCII whitespace recognised by Python `str.strip()`. -/
def pySpace (c : Char) : Bool :=
  c = ' ' ∨ c = '\t' ∨ c = '\n' ∨ c = '\r' ∨ c = '\x0b' ∨ c = '\x0c'

/-- Model of Python `s.strip()` on strings. -/
def pyStrip (s : String) : String :=
  String.mk (((s.data.dropWhile pySpace).reverse.dropWhile pySpace).reverse)

/-- Model of Python `s.startswith(pre)` on strings. -/
def pyStartsWith (s pre : String) : Bool :=
  pre.data.isPrefixOf s.data

/-- Model of Python `'\n'.join(l)` on a list of strings. -/
def joinNL : List String → String
  | [] => ""
  | [s] => s
  | s :: rest => s ++ "\n" ++ joinNL rest

/-- Model of Python `s.split(sep)` returning strings, for a
one-character separator. -/
def pySplit (s : String) (sep : Char) : List String :=
  (splitChar sep s.data).map String.mk

/-! ## Placeholder scanning

`_expand_args` scans each argument with the regular expression
`\$input\{([^}]+)\}` (`re.findall`): left-to-right, non-overlapping
matches, returning the captured group of each match.  The scan below
is fuelled; every step consumes at least one character, so
`s.length` fuel is exact. -/

/-- Fuelled scan for `\$input\x7b([^\x7d]+)\x7d` matches, returning
the captured ids in order.  At a position where the literal prefix
matches but no non-empty `\x7d`-terminated capture follows, the scan
advances a single character, exactly as the regex engine does. -/
def findPHAux : Nat → List Char → List String
  | 0, _ => []
  | _ + 1, [] => []
  | fuel + 1, s =>
    match s with
    | '$' :: 'i' :: 'n' :: 'p' :: 'u' :: 't' :: '\x7b' :: rest =>
      let cap := rest.takeWhile (fun c => c ≠ '\x7d')
      match rest.dropWhile (fun c => c ≠ '\x7d') with
      | '\x7d' :: rest2 =>
        if cap = [] then findPHAux fuel ('i' :: 'n' :: 'p' :: 'u' :: 't' :: '\x7b' :: rest)
        else String.mk cap :: findPHAux fuel rest2
      | _ => findPHAux fuel ('i' :: 'n' :: 'p' :: 'u' :: 't' :: '\x7b' :: rest)
    | _ :: cs => findPHAux fuel cs
    | [] => []

/-- All placeholder ids captured by `re.findall(r'\$input\{([^}]+)\}', s)`,
in order. -/
def findPH (s : String) : List String := findPHAux s.data.length s.data

/-- The literal placeholder text `$input\x7bid\x7d` built by
`'$input{%s}' % inputId` in the source. -/
def placeholderOf (id : String) : String := "$input\x7b" ++ id ++ "\x7d"

/-! ## Data model -/

/-- The exceptions raised by the executor, one constructor per
`raise` site (the source raises `Exception` / `TaskSpecValidationError`
with distinguishing messages; the spec names them as below). -/
inductive DockerError where
  | imagePull (code : Int)
  | unknownInput (id : String)
  | keyError (id : String)
  | invalidOutputSpec
  | containerExecution (code : Int)
  | missingOutput (path : String)
  | gcScriptMissing
  | gcScriptNotExecutable
  | gcError (code : Int)
deriving DecidableEq

/-- A task input descriptor: `_transform_path` reads `ti['id']` when
present, else `ti['name']`, and `ti.get('target')`. -/
structure TaskInput where
  id : Option String
  name : Option String
  target : Option String
deriving DecidableEq

/-- `ti['id'] if 'id' in ti else ti['name']`. -/
def tiId (ti : TaskInput) : Option String :=
  match ti.id with
  | some s => some s
  | none => ti.name

/-- A task output descriptor: `spec.get('target')` and
`spec.get('path', name)`. -/
structure OutSpec where
  target : Option String
  path : Option String
deriving DecidableEq

/-- Resolved input values / output slots: a mapping from id to the
object's `script_data` string, in dictionary iteration order. -/
abbrev Slots := List (String × String)

/-- `slots[name]['script_data'] = v`: update the entry in place
(insert at the end when absent; the caller pre-creates every slot). -/
def setSlot : Slots → String → String → Slots
  | [], k, v => [(k, v)]
  | (k2, v2) :: rest, k, v =>
    if k2 = k then (k, v) :: rest else (k2, v2) :: setSlot rest k v

/-- The `docker` section of the worker config store, as read by
`_read_from_config`: `none` when the option is absent. -/
structure GCConfig where
  cache_timeout : Option String
  exclude_images : Option String
deriving DecidableEq

/-- What `_docker_gc` does besides starting the subprocess: the
environment entries it sets on top of `os.environ`, and the exclusion
file (path, contents) it writes, if any. -/
structure GCResult where
  env : List (String × String)
  excludeFile : Option (String × String)
deriving DecidableEq

/-- The fields of the task spec consumed by `run`. -/
structure Task where
  docker_image : String
  pull_image : Option Bool
  entrypoint : Option String
  docker_run_args : Option (List String)
  container_args : Option (List String)

/-- The external world `run` interacts with: process exit codes, the
stream-capturing `run_process` utility (which may append captured
stream text to the slots and returns the container's exit code), the
filesystem existence test, the GC script checks and the config store. -/
structure World where
  uid : Nat
  pullReturncode : Int
  runProcess : List String → Slots → Bool → Bool → Slots × Int
  gcScriptExists : Bool
  gcScriptExecutable : Bool
  gcReturncode : Int
  pathExists : String → Bool
  cfg : GCConfig

/-- The observable side effects of one `run` invocation: whether the
`docker_gc_scratch` directory was created, whether the GC subprocess
was started (and with which environment / exclusion file), and the
final state of the output slots. -/
structure RunEffects where
  gcDirCreated : Bool
  gcStarted : Bool
  gcEnv : Option (List (String × String))
  gcExcludeFile : Option (String × String)
  outputs : Slots
deriving DecidableEq

/-! ## The executor, function by function -/

/-- `_transform_path(inputs, taskInputs, inputId, tmpDir)`: walk the
task input descriptors; at the first one whose id (or name) equals
`inputId`, rewrite a filepath target under `/data` via
`os.path.relpath`/`os.path.join`, or return the inline value;
raise when no descriptor matches. -/
def transform_path (inputs : Slots) (taskInputs : List TaskInput) (inputId : String)
    (tmpDir : String) : Except DockerError String :=
  match taskInputs with
  | [] => .error (.unknownInput inputId)
  | ti :: rest =>
    if tiId ti = some inputId then
      match List.lookup inputId inputs with
      | none => .error (.keyError inputId)
      | some script_data =>
        if ti.target = some "filepath" then
          .ok (pyJoin "/data" (relpath script_data tmpDir))
        else
          .ok script_data
    else transform_path inputs rest inputId tmpDir

/-- The inner loop of `_expand_args` for one argument: fold over the
ids found by `re.findall`, replacing `$input\x7bid\x7d` with the
transformed value when the id is a key of `inputs`, with `/data` when
the id is the reserved `_tempdir`, and leaving the argument untouched
otherwise. -/
def expandArgLoop (inputs : Slots) (taskInputs : List TaskInput) (tmpDir : String) :
    String → List String → Except DockerError String
  | a, [] => .ok a
  | a, inputId :: rest =>
    if (List.lookup inputId inputs).isSome then
      match transform_path inputs taskInputs inputId tmpDir with
      | .error e => .error e
      | .ok tr =>
        expandArgLoop inputs taskInputs tmpDir (pyReplace a (placeholderOf inputId) tr) rest
    else if inputId = "_tempdir" then
      expandArgLoop inputs taskInputs tmpDir (pyReplace a (placeholderOf "_tempdir") "/data") rest
    else
      expandArgLoop inputs taskInputs tmpDir a rest

/-- Expansion of a single argument of `_expand_args`. -/
def expandArg (inputs : Slots) (taskInputs : List TaskInput) (tmpDir : String)
    (arg : String) : Except DockerError String :=
  expandArgLoop inputs taskInputs tmpDir arg (findPH arg)

/-- `_expand_args(args, inputs, taskInputs, tmpDir)`: expand each
argument in order, collecting results into `newArgs`; a raise inside
`_transform_path` propagates. -/
def expand_args (args : List String) (inputs : Slots) (taskInputs : List TaskInput)
    (tmpDir : String) : Except DockerError (List String) :=
  match args with
  | [] => .ok []
  | arg :: rest =>
    match expandArg inputs taskInputs tmpDir arg with
    | .error e => .error e
    | .ok newArg =>
      match expand_args rest inputs taskInputs tmpDir with
      | .error e => .error e
      | .ok newRest => .ok (newArg :: newRest)

/-- `validate_task_outputs(task_outputs)`: reject a filepath output
whose effective path is absolute but not under `/data/`, and any
non-filepath output other than `_stdout` / `_stderr`. -/
def validate_task_outputs : List (String × OutSpec) → Except DockerError Unit
  | [] => .ok ()
  | (name, spec) :: rest =>
    if spec.target = some "filepath" then
      if pyStartsWith (spec.path.getD name) "/" ∧ ¬ pyStartsWith (spec.path.getD name) "/data/" then
        .error .invalidOutputSpec
      else validate_task_outputs rest
    else if name ≠ "_stdout" ∧ name ≠ "_stderr" then
      .error .invalidOutputSpec
    else validate_task_outputs rest

/-- `_read_from_config('exclude_images', '').split(',')` filtered to
the entries whose `strip()` is non-empty (the entries keep their
original, unstripped text). -/
def excludedImages (cfg : GCConfig) : List String :=
  (pySplit (cfg.exclude_images.getD "") ',').filter (fun img => pyStrip img ≠ "")

/-- `_docker_gc(tempdir)`: check the GC script, then start it with
`FORCE_CONTAINER_REMOVAL=1`, `STATE_DIR`/`PID_DIR` pointing at the
scratch directory, `GRACE_PERIOD_SECONDS` from the config (default
`str(3600) = "3600"`), and, when the configured exclusion list is
non-empty, write it newline-terminated to `.docker-gc-exclude` inside
the scratch directory and pass that path as `EXCLUDE_FROM_GC`. -/
def docker_gc (cfg : GCConfig) (tempdir : String)
    (scriptExists scriptExecutable : Bool) : Except DockerError GCResult :=
  if ¬ scriptExists then .error .gcScriptMissing
  else if ¬ scriptExecutable then .error .gcScriptNotExecutable
  else
    let baseEnv := [("FORCE_CONTAINER_REMOVAL", "1"),
                    ("STATE_DIR", tempdir),
                    ("PID_DIR", tempdir),
                    ("GRACE_PERIOD_SECONDS", cfg.cache_timeout.getD "3600")]
    let excluded := excludedImages cfg
    if excluded = [] then
      .ok ⟨baseEnv, none⟩
    else
      let exclude_file := pyJoin tempdir ".docker-gc-exclude"
      .ok ⟨baseEnv ++ [("EXCLUDE_FROM_GC", exclude_file)],
           some (exclude_file, joinNL excluded ++ "\n")⟩

/-- The first loop of `run`: pre-initialise the `_stdout` / `_stderr`
slots to the empty string when declared and clear the corresponding
echo flag.  Returns `(outputs, print_stderr, print_stdout)`. -/
def preinit_outputs (task_outputs : List (String × OutSpec)) (outputs : Slots) :
    Slots × Bool × Bool :=
  task_outputs.foldl
    (fun acc p =>
      if p.1 = "_stderr" then (setSlot acc.1 "_stderr" "", false, acc.2.2)
      else if p.1 = "_stdout" then (setSlot acc.1 "_stdout" "", acc.2.1, false)
      else acc)
    (outputs, true, true)

/-- The `docker run` command line built by `run`. -/
def runCommand (task : Task) (args : List String) (tempdir : String) (uid : Nat) :
    List String :=
  ["docker", "run", "-u", toString uid]
    ++ (if tempdir ≠ "" then ["-v", tempdir ++ ":/data"] else [])
    ++ (match task.entrypoint with
        | some e => ["--entrypoint", e]
        | none => [])
    ++ task.docker_run_args.getD []
    ++ [task.docker_image] ++ args

/-- The host path computed for a filepath output in `run`'s extraction
loop: the declared path (default: the output id), rooted under `/data`
when relative, with the first occurrence of `/data` rewritten to the
host temp directory. -/
def hostOutputPath (tempdir : String) (name : String) (spec : OutSpec) : String :=
  let path := spec.path.getD name
  let path := if ¬ pyStartsWith path "/" then "/data/" ++ path else path
  pyReplaceFirst path "/data" tempdir

/-- The extraction loop of `run`: for each filepath output, compute the
host path, raise when it does not exist, otherwise write it into the
output slot.  Returns the final slots and the raised error, if any. -/
def extract_outputs (tempdir : String) (pathExists : String → Bool) :
    List (String × OutSpec) → Slots → Slots × Option DockerError
  | [], outputs => (outputs, none)
  | (name, tout) :: rest, outputs =>
    if tout.target = some "filepath" then
      let path := hostOutputPath tempdir name tout
      if pathExists path then
        extract_outputs tempdir pathExists rest (setSlot outputs name path)
      else (outputs, some (.missingOutput path))
    else extract_outputs tempdir pathExists rest outputs

/-- `run(task, inputs, outputs, task_inputs, task_outputs, **kwargs)`:
pull (when enabled), expand the container arguments, pre-initialise
stream slots, run the container via `run_process`, and on success
create the GC scratch directory, start the garbage collector, extract
the filepath outputs and finally check the collector's exit status.
Returns the observable side effects together with the raised error,
if any. -/
def run (task : Task) (inputs : Slots) (outputs : Slots) (task_inputs : List TaskInput)
    (task_outputs : List (String × OutSpec)) (tempdir : String) (w : World) :
    RunEffects × Option DockerError :=
  if task.pull_image.getD true ∧ w.pullReturncode ≠ 0 then
    (⟨false, false, none, none, outputs⟩, some (.imagePull w.pullReturncode))
  else
    match expand_args (task.container_args.getD []) inputs task_inputs tempdir with
    | .error e => (⟨false, false, none, none, outputs⟩, some e)
    | .ok args =>
      let pre := preinit_outputs task_outputs outputs
      let res := w.runProcess (runCommand task args tempdir w.uid) pre.1 pre.2.2 pre.2.1
      if res.2 ≠ 0 then
        (⟨false, false, none, none, res.1⟩, some (.containerExecution res.2))
      else
        let gc_dir := pyJoin tempdir "docker_gc_scratch"
        match docker_gc w.cfg gc_dir w.gcScriptExists w.gcScriptExecutable with
        | .error e => (⟨true, false, none, none, res.1⟩, some e)
        | .ok g =>
          let ex := extract_outputs tempdir w.pathExists task_outputs res.1
          match ex.2 with
          | some e => (⟨true, true, some g.env, g.excludeFile, ex.1⟩, some e)
          | none =>
            if w.gcReturncode ≠ 0 then
              (⟨true, true, some g.env, g.excludeFile, ex.1⟩, some (.gcError w.gcReturncode))
            else
              (⟨true, true, some g.env, g.excludeFile, ex.1⟩, none)

/-! ## Spec-side definitions -/

/-- The rejection condition of `validate` as the spec words it: a
filepath-target output whose effective path is absolute but does not
start with the data-mount prefix, or a non-filepath output whose id is
neither `_stdout` nor `_stderr`. -/
def specBadOutput (name : String) (spec : OutSpec) : Prop :=
  (spec.target = some "filepath" ∧ pyStartsWith (spec.path.getD name) "/" = true ∧
    pyStartsWith (spec.path.getD name) "/data/" = false)
  ∨ (spec.target ≠ some "filepath" ∧ name ≠ "_stdout" ∧ name ≠ "_stderr")

instance (name : String) (spec : OutSpec) : Decidable (specBadOutput name spec) := by
  unfold specBadOutput; infer_instance

/-- A path component that survives normalisation unchanged: non-empty
and neither `.` nor `..`. -/
def CleanComp (g : List Char) : Prop :=
  g ≠ [] ∧ g ≠ ['.'] ∧ g ≠ ['.', '.']

instance (g : List Char) : Decidable (CleanComp g) := by
  unfold CleanComp; infer_instance

/-- Concrete GC start used as verification fixture: config with
`cache_timeout = "1234"` and `exclude_images = "img1,img2"` on scratch
directory `/scratch`. -/
def gcSample : GCResult :=
  ⟨[("FORCE_CONTAINER_REMOVAL", "1"), ("STATE_DIR", "/scratch"), ("PID_DIR", "/scratch"),
    ("GRACE_PERIOD_SECONDS", "1234"), ("EXCLUDE_FROM_GC", "/scratch/.docker-gc-exclude")],
    some ("/scratch/.docker-gc-exclude", "img1\nimg2\n")⟩

/-- Concrete task used as verification fixture: no pull, no
entrypoint, no extra run arguments, empty container arguments. -/
def sampleTask : Task :=
  ⟨"testimage", some false, none, none, some []⟩

/-- Concrete world used as verification fixture: the container process
leaves the slots unchanged and exits with code 2. -/
def sampleWorld : World :=
  ⟨0, 0, fun _ s _ _ => (s, 2), true, true, 0, fun _ => true, ⟨none, none⟩⟩

/-! ## Helper lemmas -/

/-- Writing a slot makes it readable. -/
theorem lookup_setSlot_self (m : Slots) (k v : String) :
    List.lookup k (setSlot m k v) = some v := by
  induction m with
  | nil => simp [setSlot, List.lookup_cons]
  | cons p rest ih =>
    obtain ⟨k2, v2⟩ := p
    by_cases hk : k2 = k
    · simp [setSlot, hk, List.lookup_cons]
    · simp only [setSlot, hk, ite_false, List.lookup_cons,
        beq_false_of_ne (fun he => hk he.symm)]
      exact ih

/-- Writing a slot leaves the other slots unchanged. -/
theorem lookup_setSlot_ne (m : Slots) (k k2 v : String) (h : k ≠ k2) :
    List.lookup k (setSlot m k2 v) = List.lookup k m := by
  induction m with
  | nil => simp [setSlot, List.lookup_cons, beq_false_of_ne h, List.lookup]
  | cons p rest ih =>
    obtain ⟨k3, v3⟩ := p
    by_cases hk : k3 = k2
    · subst hk
      simp [setSlot, List.lookup_cons, beq_false_of_ne h]
    · simp only [setSlot, hk, ite_false, List.lookup_cons]
      cases hkk : (k == k3) <;> simp [hkk, ih]

/-- The extraction loop never touches a slot whose id is not among
the processed output descriptors. -/
theorem extract_outputs_lookup_not_mem (tempdir : String) (pathExists : String → Bool)
    (touts : List (String × OutSpec)) (outputs : Slots) (k : String)
    (hk : k ∉ touts.map Prod.fst) :
    List.lookup k (extract_outputs tempdir pathExists touts outputs).1 =
      List.lookup k outputs := by
  induction touts generalizing outputs with
  | nil => rfl
  | cons p rest ih =>
    obtain ⟨name, tout⟩ := p
    simp only [List.map_cons, List.mem_cons, not_or] at hk
    obtain ⟨hk1, hk2⟩ := hk
    by_cases ht : tout.target = some "filepath"
    · by_cases hex : pathExists (hostOutputPath tempdir name tout) = true
      · simp only [extract_outputs]
        rw [if_pos ht, if_pos hex]
        rw [ih (setSlot outputs name (hostOutputPath tempdir name tout)) hk2]
        exact lookup_setSlot_ne outputs k name _ hk1
      · simp only [extract_outputs]
        rw [if_pos ht, if_neg hex]
    · simp only [extract_outputs]
      rw [if_neg ht]
      exact ih outputs hk2

/-- An id that is neither a key of the resolved inputs nor the
reserved `_tempdir` token is skipped by the expansion loop. -/
theorem expandArgLoop_skip (inputs : Slots) (taskInputs : List TaskInput) (tmpDir : String)
    (ids : List String) (h : ∀ id ∈ ids, List.lookup id inputs = none ∧ id ≠ "_tempdir") :
    ∀ a, expandArgLoop inputs taskInputs tmpDir a ids = Except.ok a := by
  induction ids with
  | nil => intro a; rfl
  | cons j rest ih =>
    intro a
    have hj := h j (List.mem_cons_self j rest)
    have hrest : ∀ id ∈ rest, List.lookup id inputs = none ∧ id ≠ "_tempdir" :=
      fun id hid => h id (List.mem_cons_of_mem j hid)
    simp only [expandArgLoop, hj.1, Option.isSome_none, Bool.false_eq_true, if_false,
      hj.2, ite_false]
    exact ih hrest a

/-- An argument with no placeholder occurrence expands to itself. -/
theorem expandArg_of_no_placeholder (inputs : Slots) (taskInputs : List TaskInput)
    (tmpDir : String) (arg : String) (h : findPH arg = []) :
    expandArg inputs taskInputs tmpDir arg = Except.ok arg := by
  unfold expandArg
  rw [h]
  rfl

/-- Looking up an id skips a leading entry with a different key. -/
theorem lookup_cons_ne_key (inputs : Slots) (k id v : String) (hid : id ≠ k) :
    List.lookup id ((k, v) :: inputs) = List.lookup id inputs := by
  simp [List.lookup_cons, beq_false_of_ne hid]

/-- `_transform_path` ignores a resolved input with a different key. -/
theorem transform_path_cons_inputs (inputs : Slots) (tis : List TaskInput)
    (id tmp k v : String) (hid : id ≠ k) :
    transform_path ((k, v) :: inputs) tis id tmp = transform_path inputs tis id tmp := by
  induction tis with
  | nil => rfl
  | cons ti rest ih =>
    by_cases hm : tiId ti = some id
    · simp only [transform_path, hm, ite_true, lookup_cons_ne_key inputs k id v hid]
    · simp only [transform_path, hm, ite_false]
      exact ih

/-- When `_tempdir` is not among the resolved inputs, the expansion
loop behaves exactly as if `_tempdir` were a resolved input carrying
the literal value `/data`, matched by a leading non-filepath
descriptor. -/
theorem expandArgLoop_tempdir_as_input (inputs : Slots) (taskInputs : List TaskInput)
    (tmpDir : String) (h : List.lookup "_tempdir" inputs = none) :
    ∀ ids a, expandArgLoop inputs taskInputs tmpDir a ids =
      expandArgLoop (("_tempdir", "/data") :: inputs)
        (⟨some "_tempdir", none, none⟩ :: taskInputs) tmpDir a ids := by
  intro ids
  induction ids with
  | nil => intro a; rfl
  | cons id rest ih =>
    intro a
    by_cases hid : id = "_tempdir"
    · subst hid
      have hlk : List.lookup "_tempdir" (("_tempdir", "/data") :: inputs) = some "/data" := by
        simp [List.lookup_cons]
      have htr : transform_path (("_tempdir", "/data") :: inputs)
          (⟨some "_tempdir", none, none⟩ :: taskInputs) "_tempdir" tmpDir =
          Except.ok "/data" := by
        simp only [transform_path, tiId, ite_true, hlk]
        rw [if_neg (by simp : ¬(none : Option String) = some "filepath")]
      simp only [expandArgLoop, h, Option.isSome_none, Bool.false_eq_true, if_false,
        ite_true, hlk, Option.isSome_some, if_true, htr]
      exact ih _
    · have hlk2 : List.lookup id (("_tempdir", "/data") :: inputs) =
          List.lookup id inputs :=
        lookup_cons_ne_key inputs "_tempdir" id "/data" hid
      have htr2 : transform_path (("_tempdir", "/data") :: inputs)
          (⟨some "_tempdir", none, none⟩ :: taskInputs) id tmpDir =
          transform_path inputs taskInputs id tmpDir := by
        have hskip : tiId (⟨some "_tempdir", none, none⟩ : TaskInput) ≠ some id := by
          intro he
          exact hid (by injection he with he2; exact he2.symm)
        simp only [transform_path, hskip, ite_false]
        exact transform_path_cons_inputs inputs taskInputs id tmpDir "_tempdir" "/data" hid
      cases hl : List.lookup id inputs with
      | none =>
        rw [hl] at hlk2
        simp only [expandArgLoop, hl, hlk2, Option.isSome_none, Bool.false_eq_true,
          if_false, hid, ite_false]
        exact ih a
      | some v =>
        rw [hl] at hlk2
        simp only [expandArgLoop, hl, hlk2, Option.isSome_some, if_true, htr2]
        cases htp : transform_path inputs taskInputs id tmpDir with
        | error e => rfl
        | ok tr => exact ih _

/-- Lifting of `expandArgLoop_tempdir_as_input` to full argument
lists. -/
theorem expand_args_tempdir_as_input (args : List String) (inputs : Slots)
    (taskInputs : List TaskInput) (tmpDir : String)
    (h : List.lookup "_tempdir" inputs = none) :
    expand_args args inputs taskInputs tmpDir =
      expand_args args (("_tempdir", "/data") :: inputs)
        (⟨some "_tempdir", none, none⟩ :: taskInputs) tmpDir := by
  induction args with
  | nil => rfl
  | cons arg rest ih =>
    have h1 : expandArg inputs taskInputs tmpDir arg =
        expandArg (("_tempdir", "/data") :: inputs)
          (⟨some "_tempdir", none, none⟩ :: taskInputs) tmpDir arg := by
      unfold expandArg
      exact expandArgLoop_tempdir_as_input inputs taskInputs tmpDir h (findPH arg) arg
    simp only [expand_args, h1, ih]

/-- At each position where the scanner found the reserved `_tempdir`
id (absent from the resolved inputs), the loop replaces the
placeholder text in the accumulated argument by `/data` and goes on. -/
theorem expandArgLoop_split_tempdir (inputs : Slots) (taskInputs : List TaskInput)
    (tmpDir : String) (h : List.lookup "_tempdir" inputs = none) :
    ∀ (pre : List String) (a : String) (suf : List String),
      expandArgLoop inputs taskInputs tmpDir a (pre ++ "_tempdir" :: suf) =
        match expandArgLoop inputs taskInputs tmpDir a pre with
        | .error e => .error e
        | .ok b =>
          expandArgLoop inputs taskInputs tmpDir
            (pyReplace b (placeholderOf "_tempdir") "/data") suf := by
  intro pre
  induction pre with
  | nil =>
    intro a suf
    simp only [List.nil_append, expandArgLoop, h, Option.isSome_none, Bool.false_eq_true,
      if_false, ite_true]
  | cons j rest ih =>
    intro a suf
    simp only [List.cons_append, expandArgLoop]
    by_cases hj : (List.lookup j inputs).isSome = true
    · rw [if_pos hj, if_pos hj]
      cases htp : transform_path inputs taskInputs j tmpDir with
      | error e => rfl
      | ok tr => exact ih _ suf
    · rw [if_neg hj, if_neg hj]
      by_cases hjt : j = "_tempdir"
      · rw [if_pos hjt, if_pos hjt]
        exact ih _ suf
      · rw [if_neg hjt, if_neg hjt]
        exact ih a suf

/-- When no task input descriptor matches the id, `_transform_path`
raises the unknown-input error. -/
theorem transform_path_no_descr (inputs : Slots) (taskInputs : List TaskInput)
    (id : String) (tmpDir : String) (hdesc : ∀ ti ∈ taskInputs, tiId ti ≠ some id) :
    transform_path inputs taskInputs id tmpDir = Except.error (DockerError.unknownInput id) := by
  induction taskInputs with
  | nil => rfl
  | cons ti rest ih =>
    have hne := hdesc ti (List.mem_cons_self ti rest)
    simp only [transform_path, hne, ite_false]
    exact ih (fun t ht => hdesc t (List.mem_cons_of_mem ti ht))

/-- The expansion loop raises the unknown-input error at the first id
that is a key of the resolved inputs but matches no descriptor,
whatever earlier unexpandable ids did to the argument. -/
theorem expandArgLoop_unknown (inputs : Slots) (taskInputs : List TaskInput)
    (tmpDir : String) (id : String) (pre suf : List String)
    (hpre : ∀ j ∈ pre, List.lookup j inputs = none)
    (hid : (List.lookup id inputs).isSome = true)
    (hdesc : ∀ ti ∈ taskInputs, tiId ti ≠ some id) :
    ∀ a, expandArgLoop inputs taskInputs tmpDir a (pre ++ id :: suf) =
      Except.error (DockerError.unknownInput id) := by
  induction pre with
  | nil =>
    intro a
    simp only [List.nil_append, expandArgLoop, hid, if_true,
      transform_path_no_descr inputs taskInputs id tmpDir hdesc]
  | cons j rest ih =>
    intro a
    have hj := hpre j (List.mem_cons_self j rest)
    have hrest : ∀ j2 ∈ rest, List.lookup j2 inputs = none :=
      fun j2 hj2 => hpre j2 (List.mem_cons_of_mem j hj2)
    simp only [List.cons_append, expandArgLoop, hj, Option.isSome_none,
      Bool.false_eq_true, if_false]
    by_cases hjt : j = "_tempdir"
    · simp only [hjt, ite_true]
      exact ih hrest _
    · simp only [hjt, ite_false]
      exact ih hrest a

/-- Splitting never yields the empty list of components. -/
theorem splitChar_ne_nil (sep : Char) (l : List Char) : splitChar sep l ≠ [] := by
  cases l with
  | nil => simp [splitChar]
  | cons c cs =>
    simp only [splitChar]
    by_cases hc : c = sep
    · simp [hc]
    · simp only [hc, ite_false]
      cases h : splitChar sep cs with
      | nil => simp
      | cons g gs => simp

/-- The components of a split list always exist. -/
theorem splitChar_exists_cons (sep : Char) (l : List Char) :
    ∃ g gs, splitChar sep l = g :: gs := by
  cases h : splitChar sep l with
  | nil => exact absurd h (splitChar_ne_nil sep l)
  | cons g gs => exact ⟨g, gs, rfl⟩

/-- Unfolding equation of `splitChar` at the separator. -/
theorem splitChar_cons_eq (sep : Char) (cs : List Char) :
    splitChar sep (sep :: cs) = [] :: splitChar sep cs := by
  simp [splitChar]

/-- Unfolding equation of `splitChar` away from the separator. -/
theorem splitChar_cons_ne (sep c : Char) (cs : List Char) (hc : c ≠ sep)
    (g : List Char) (gs : List (List Char)) (h : splitChar sep cs = g :: gs) :
    splitChar sep (c :: cs) = (c :: g) :: gs := by
  simp [splitChar, hc, h]

/-- Splitting distributes over concatenation at a separator. -/
theorem splitChar_append (sep : Char) (t s : List Char) :
    splitChar sep (t ++ sep :: s) = splitChar sep t ++ splitChar sep s := by
  induction t with
  | nil => simp [splitChar]
  | cons c cs ih =>
    by_cases hc : c = sep
    · subst hc
      rw [List.cons_append, splitChar_cons_eq, splitChar_cons_eq, ih, List.cons_append]
    · obtain ⟨g0, gs0, h0⟩ := splitChar_exists_cons sep cs
      obtain ⟨g1, gs1, h1⟩ := splitChar_exists_cons sep (cs ++ sep :: s)
      rw [List.cons_append, splitChar_cons_ne sep c _ hc g1 gs1 h1,
        splitChar_cons_ne sep c cs hc g0 gs0 h0]
      rw [ih, h0, List.cons_append] at h1
      injection h1 with e1 e2
      rw [← e1, ← e2, List.cons_append]

/-- Joining a split list with its separator reproduces the list. -/
theorem joinChar_splitChar (sep : Char) (s : List Char) :
    joinChar sep (splitChar sep s) = s := by
  induction s with
  | nil => rfl
  | cons c cs ih =>
    obtain ⟨g0, gs0, h0⟩ := splitChar_exists_cons sep cs
    by_cases hc : c = sep
    · subst hc
      rw [splitChar_cons_eq, h0]
      show ([] : List Char) ++ c :: joinChar c (g0 :: gs0) = c :: cs
      rw [List.nil_append, ← h0, ih]
    · rw [splitChar_cons_ne sep c cs hc g0 gs0 h0]
      rw [h0] at ih
      cases gs0 with
      | nil =>
        show c :: g0 = c :: cs
        exact congrArg (fun l => c :: l) ih
      | cons g1 gs1 =>
        show (c :: g0) ++ sep :: joinChar sep (g1 :: gs1) = c :: cs
        rw [List.cons_append]
        exact congrArg (fun l => c :: l) ih

/-- Folding the normalisation step over clean components appends them
unchanged. -/
theorem foldl_normStep_clean (ss : List (List Char))
    (h : ∀ g ∈ ss, CleanComp g) :
    ∀ acc, ss.foldl normStep acc = acc ++ ss := by
  induction ss with
  | nil => intro acc; simp
  | cons g gs ih =>
    intro acc
    have hg := h g (List.mem_cons_self _ _)
    have hstep : normStep acc g = acc ++ [g] := by
      unfold normStep
      rw [if_neg (by rintro (h1 | h2); exacts [hg.1 h1, hg.2.1 h2]), if_neg hg.2.2]
    simp only [List.foldl_cons, hstep]
    rw [ih (fun x hx => h x (List.mem_cons_of_mem _ hx)) (acc ++ [g])]
    simp

/-- Normalisation of a component list extended by clean components. -/
theorem normParts_append_clean (xs ss : List (List Char))
    (h : ∀ g ∈ ss, CleanComp g) :
    normParts (xs ++ ss) = normParts xs ++ ss := by
  unfold normParts
  rw [List.foldl_append]
  exact foldl_normStep_clean ss h _

/-- The common prefix of a list with an extension of itself is the
whole list. -/
theorem commonPrefixLen_append_self (xs ys : List (List Char)) :
    commonPrefixLen (xs ++ ys) xs = xs.length := by
  induction xs with
  | nil =>
    cases ys with
    | nil => rfl
    | cons a b => rfl
  | cons x xs ih => simp [commonPrefixLen, ih]

/-- `os.path.relpath` of a path lying under `start` (with a clean
relative suffix) is exactly that suffix. -/
theorem relpath_under (t s : List Char) (hs : ∀ g ∈ splitChar '/' s, CleanComp g) :
    relpathL (t ++ '/' :: s) t = s := by
  simp only [relpathL, splitChar_append, normParts_append_clean _ _ hs,
    commonPrefixLen_append_self, Nat.sub_self, List.replicate, List.nil_append,
    List.drop_left]
  rw [if_neg (splitChar_ne_nil '/' s)]
  exact joinChar_splitChar '/' s

/-- A character list whose components are all clean does not start
with the separator. -/
theorem clean_head_ne_slash (s : List Char) (hs : ∀ g ∈ splitChar '/' s, CleanComp g) :
    s.head? ≠ some '/' := by
  cases s with
  | nil => simp
  | cons c cs =>
    intro hc
    simp only [List.head?_cons, Option.some.injEq] at hc
    subst hc
    have hmem : ([] : List Char) ∈ splitChar '/' ('/' :: cs) := by
      simp [splitChar]
    exact (hs [] hmem).1 rfl

/-- `os.path.join` concatenates with a separator when the second part
is relative and the first neither empty nor slash-terminated. -/
theorem pyJoinL_eq (t s : List Char) (ht1 : t ≠ []) (ht2 : t.getLast? ≠ some '/')
    (hsh : s.head? ≠ some '/') : pyJoinL t s = t ++ '/' :: s := by
  unfold pyJoinL
  rw [if_neg hsh, if_neg (by rintro (h1 | h2); exacts [ht1 h1, ht2 h2])]

/-- `_transform_path` skips descriptors whose id does not match. -/
theorem transform_path_append (inputs : Slots) (pre post : List TaskInput) (id : String)
    (tmpDir : String) (hpre : ∀ ti ∈ pre, tiId ti ≠ some id) :
    transform_path inputs (pre ++ post) id tmpDir =
      transform_path inputs post id tmpDir := by
  induction pre with
  | nil => rfl
  | cons ti rest ih =>
    have hne := hpre ti (List.mem_cons_self _ _)
    simp only [List.cons_append, transform_path, hne, ite_false]
    exact ih (fun ti2 h2 => hpre ti2 (List.mem_cons_of_mem _ h2))

/-! ## Claim theorems -/

/-- C1 (counterexample): when the resolved-inputs mapping itself
contains the key `_tempdir`, the placeholder `$input\x7b_tempdir\x7d`
is treated as an ordinary input and does not expand to `/data`. -/
theorem expand_tempdir_shadowed_cex :
    expand_args ["$input\x7b_tempdir\x7d"] [("_tempdir", "hello")]
        [⟨some "_tempdir", none, some "string"⟩] "/tmp" ≠
      Except.ok ["/data"] ∧
    expand_args ["$input\x7b_tempdir\x7d"] [("_tempdir", "hello")]
        [⟨some "_tempdir", none, some "string"⟩] "/tmp" =
      Except.ok ["hello"] := by decide

/-- C1 (amended): for every argument list, whenever `_tempdir` is not
a key of the supplied resolved inputs, the placeholder
`$input\x7b_tempdir\x7d` expands to the in-container mount root
`/data`, regardless of which other input ids are supplied and of the
declared descriptors: expansion of any argument list coincides with
expansion where `_tempdir` is a resolved input carrying the literal
value `/data`, and at every position where the scanner found the
`_tempdir` id the loop rewrites the placeholder text in the
accumulated argument to `/data` before continuing. -/
theorem expand_tempdir_unshadowed (args : List String) (inputs : Slots)
    (taskInputs : List TaskInput) (tmpDir : String)
    (h : List.lookup "_tempdir" inputs = none) :
    expand_args args inputs taskInputs tmpDir =
      expand_args args (("_tempdir", "/data") :: inputs)
        (⟨some "_tempdir", none, none⟩ :: taskInputs) tmpDir ∧
    ∀ (a : String) (pre suf : List String),
      expandArgLoop inputs taskInputs tmpDir a (pre ++ "_tempdir" :: suf) =
        match expandArgLoop inputs taskInputs tmpDir a pre with
        | .error e => .error e
        | .ok b =>
          expandArgLoop inputs taskInputs tmpDir
            (pyReplace b (placeholderOf "_tempdir") "/data") suf :=
  ⟨expand_args_tempdir_as_input args inputs taskInputs tmpDir h,
   fun a pre suf => expandArgLoop_split_tempdir inputs taskInputs tmpDir h pre a suf⟩

/-- C1 (witness for the amended claim): two arguments mixing
surrounding text, two `_tempdir` occurrences and other placeholders;
the as-if-input equivalence is given by the theorem, and the decided
evaluation shows every `_tempdir` occurrence became `/data`. -/
theorem expand_tempdir_unshadowed_wit :
    List.lookup "_tempdir" [("foo", "bar")] = none ∧
    expand_args ["a$input\x7b_tempdir\x7d/b $input\x7b_tempdir\x7d",
        "$input\x7bfoo\x7d$input\x7bopt\x7d"] [("foo", "bar")]
        [⟨some "foo", none, none⟩] "/x" =
      expand_args ["a$input\x7b_tempdir\x7d/b $input\x7b_tempdir\x7d",
        "$input\x7bfoo\x7d$input\x7bopt\x7d"] (("_tempdir", "/data") :: [("foo", "bar")])
        (⟨some "_tempdir", none, none⟩ :: [⟨some "foo", none, none⟩]) "/x" ∧
    expand_args ["a$input\x7b_tempdir\x7d/b $input\x7b_tempdir\x7d",
        "$input\x7bfoo\x7d$input\x7bopt\x7d"] [("foo", "bar")]
        [⟨some "foo", none, none⟩] "/x" =
      Except.ok ["a/data/b /data", "bar$input\x7bopt\x7d"] :=
  ⟨by decide,
   (expand_tempdir_unshadowed ["a$input\x7b_tempdir\x7d/b $input\x7b_tempdir\x7d",
      "$input\x7bfoo\x7d$input\x7bopt\x7d"] [("foo", "bar")]
      [⟨some "foo", none, none⟩] "/x" (by decide)).1,
   by decide⟩

/-- C7 (counterexample): the reserved id `_tempdir` is absent from the
supplied resolved inputs, yet its placeholder is not left textually
unchanged — it is rewritten to `/data`. -/
theorem expand_absent_id_cex :
    expand_args ["$input\x7b_tempdir\x7d"] [] [] "/tmp" ≠
      Except.ok ["$input\x7b_tempdir\x7d"] ∧
    expand_args ["$input\x7b_tempdir\x7d"] [] [] "/tmp" =
      Except.ok ["/data"] := by decide

/-- C7 (amended): when every placeholder id occurring in the argument
list is absent from the supplied resolved inputs and is not the
reserved `_tempdir` token, expansion returns the arguments textually
unchanged, and applying expansion to the result again yields the same
output. -/
theorem expand_absent_ids_identity (args : List String) (inputs : Slots)
    (taskInputs : List TaskInput) (tmpDir : String)
    (h : ∀ arg ∈ args, ∀ id ∈ findPH arg,
      List.lookup id inputs = none ∧ id ≠ "_tempdir") :
    expand_args args inputs taskInputs tmpDir = Except.ok args ∧
    ∀ res, expand_args args inputs taskInputs tmpDir = Except.ok res →
      expand_args res inputs taskInputs tmpDir = Except.ok res := by
  have main : ∀ as, (∀ arg ∈ as, ∀ id ∈ findPH arg,
      List.lookup id inputs = none ∧ id ≠ "_tempdir") →
      expand_args as inputs taskInputs tmpDir = Except.ok as := by
    intro as has
    induction as with
    | nil => rfl
    | cons arg rest ih =>
      have h1 : expandArg inputs taskInputs tmpDir arg = Except.ok arg :=
        expandArgLoop_skip inputs taskInputs tmpDir (findPH arg)
          (has arg (List.mem_cons_self arg rest)) arg
      have h2 := ih (fun a ha => has a (List.mem_cons_of_mem arg ha))
      simp only [expand_args, h1, h2]
  refine ⟨main args h, fun res hres => ?_⟩
  rw [main args h] at hres
  obtain rfl : args = res := by injection hres
  exact main args h

/-- C7 (witness for the amended claim): an argument referencing the
unsupplied id `opt` is returned unchanged, idempotently. -/
theorem expand_absent_ids_identity_wit :
    (∀ arg ∈ ["--flag=$input\x7bopt\x7d"], ∀ id ∈ findPH arg,
      List.lookup id [("foo", "bar")] = none ∧ id ≠ "_tempdir") ∧
    expand_args ["--flag=$input\x7bopt\x7d"] [("foo", "bar")] [] "/x" =
      Except.ok ["--flag=$input\x7bopt\x7d"] :=
  ⟨by decide,
   (expand_absent_ids_identity ["--flag=$input\x7bopt\x7d"] [("foo", "bar")] [] "/x"
     (by decide)).1⟩

/-- C8: expansion (when it succeeds) returns exactly one output
argument per input argument in the same order, and any argument that
contains no placeholder occurrence is returned unchanged at its
position. -/
theorem expand_args_shape (args : List String) (inputs : Slots)
    (taskInputs : List TaskInput) (tmpDir : String) (res : List String)
    (h : expand_args args inputs taskInputs tmpDir = Except.ok res) :
    res.length = args.length ∧
    ∀ (i : Nat) (arg : String),
      args[i]? = some arg → findPH arg = [] → res[i]? = some arg := by
  induction args generalizing res with
  | nil =>
    obtain rfl : ([] : List String) = res := by injection h
    exact ⟨rfl, fun i arg hi _ => by simp at hi⟩
  | cons arg rest ih =>
    simp only [expand_args] at h
    cases h1 : expandArg inputs taskInputs tmpDir arg with
    | error e => rw [h1] at h; exact absurd h (by simp)
    | ok newArg =>
      rw [h1] at h
      cases h2 : expand_args rest inputs taskInputs tmpDir with
      | error e => rw [h2] at h; exact absurd h (by simp)
      | ok newRest =>
        rw [h2] at h
        obtain rfl : newArg :: newRest = res := by injection h
        obtain ⟨ihlen, ihget⟩ := ih newRest h2
        refine ⟨by simp [ihlen], fun i a hi hfp => ?_⟩
        cases i with
        | zero =>
          simp only [List.getElem?_cons_zero, Option.some.injEq] at hi
          subst hi
          have hexp := expandArg_of_no_placeholder inputs taskInputs tmpDir arg hfp
          rw [hexp] at h1
          obtain rfl : arg = newArg := by injection h1
          simp
        | succ n =>
          simp only [List.getElem?_cons_succ] at hi ⊢
          exact ihget n a hi hfp

/-- C8 (witness): a two-argument list with one placeholder-free
argument keeps its length, order and the placeholder-free argument. -/
theorem expand_args_shape_wit :
    expand_args ["plain", "$input\x7b_tempdir\x7d"] [] [] "/x" =
      Except.ok ["plain", "/data"] ∧
    (["plain", "/data"] : List String).length =
      (["plain", "$input\x7b_tempdir\x7d"] : List String).length ∧
    ∀ (i : Nat) (arg : String),
      (["plain", "$input\x7b_tempdir\x7d"] : List String)[i]? = some arg →
      findPH arg = [] → (["plain", "/data"] : List String)[i]? = some arg :=
  ⟨by decide,
   expand_args_shape ["plain", "$input\x7b_tempdir\x7d"] [] [] "/x"
     ["plain", "/data"] (by decide)⟩

/-- C6: when a placeholder id is present among the supplied resolved
inputs (forcing the filepath-target lookup) but no task input
descriptor carries a matching id or name, expansion fails with the
unknown-input error. -/
theorem expand_args_unknown_input (inputs : Slots) (taskInputs : List TaskInput)
    (tmpDir : String) (arg : String) (rest : List String) (id : String)
    (pre suf : List String)
    (hfind : findPH arg = pre ++ id :: suf)
    (hpre : ∀ j ∈ pre, List.lookup j inputs = none)
    (hid : (List.lookup id inputs).isSome = true)
    (hdesc : ∀ ti ∈ taskInputs, tiId ti ≠ some id) :
    expand_args (arg :: rest) inputs taskInputs tmpDir =
      Except.error (DockerError.unknownInput id) := by
  have h1 : expandArg inputs taskInputs tmpDir arg =
      Except.error (DockerError.unknownInput id) := by
    unfold expandArg
    rw [hfind]
    exact expandArgLoop_unknown inputs taskInputs tmpDir id pre suf hpre hid hdesc arg
  simp only [expand_args, h1]

/-- C6 (witness): input `foo` is supplied but no descriptor mentions
it, so the expansion of `$input\x7bfoo\x7d` errors. -/
theorem expand_args_unknown_input_wit :
    findPH "$input\x7bfoo\x7d" = [] ++ "foo" :: [] ∧
    (List.lookup "foo" [("foo", "/tmp/x")]).isSome = true ∧
    expand_args ["$input\x7bfoo\x7d"] [("foo", "/tmp/x")]
        [⟨some "bar", none, some "filepath"⟩] "/tmp" =
      Except.error (DockerError.unknownInput "foo") :=
  ⟨by decide, by decide,
   expand_args_unknown_input [("foo", "/tmp/x")] [⟨some "bar", none, some "filepath"⟩]
     "/tmp" "$input\x7bfoo\x7d" [] "foo" [] [] (by decide)
     (fun j hj => by simp at hj) (by decide)
     (by intro ti hti; simp at hti; subst hti; decide)⟩

/-- C3: `validate_task_outputs` raises the invalid-output-spec error
if and only if some output descriptor has target `filepath` with an
effective path that is absolute but does not start with `/data/`, or
a non-filepath target with an id other than `_stdout` / `_stderr`. -/
theorem validate_task_outputs_error_iff (touts : List (String × OutSpec)) :
    (∃ e, validate_task_outputs touts = Except.error e) ↔
      ∃ p ∈ touts, specBadOutput p.1 p.2 := by
  induction touts with
  | nil => simp [validate_task_outputs]
  | cons p rest ih =>
    obtain ⟨name, spec⟩ := p
    by_cases ht : spec.target = some "filepath"
    · by_cases hb : pyStartsWith (spec.path.getD name) "/" = true ∧
        ¬ pyStartsWith (spec.path.getD name) "/data/" = true
      · constructor
        · intro _
          exact ⟨(name, spec), List.mem_cons_self _ _,
            Or.inl ⟨ht, hb.1, by simpa using hb.2⟩⟩
        · intro _
          exact ⟨DockerError.invalidOutputSpec, by
            simp only [validate_task_outputs]
            rw [if_pos ht, if_pos hb]⟩
      · have hstep : validate_task_outputs ((name, spec) :: rest) =
            validate_task_outputs rest := by
          simp only [validate_task_outputs]
          rw [if_pos ht, if_neg hb]
        have hnotbad : ¬ specBadOutput name spec := by
          intro hbad
          rcases hbad with ⟨_, h1, h2⟩ | ⟨hne, _⟩
          · exact hb ⟨h1, by simp [h2]⟩
          · exact hne ht
        rw [hstep]
        rw [ih]
        constructor
        · rintro ⟨q, hq, hqbad⟩
          exact ⟨q, List.mem_cons_of_mem _ hq, hqbad⟩
        · rintro ⟨q, hq, hqbad⟩
          rcases List.mem_cons.mp hq with rfl | hq2
          · exact absurd hqbad hnotbad
          · exact ⟨q, hq2, hqbad⟩
    · by_cases hn : name ≠ "_stdout" ∧ name ≠ "_stderr"
      · constructor
        · intro _
          exact ⟨(name, spec), List.mem_cons_self _ _, Or.inr ⟨ht, hn⟩⟩
        · intro _
          exact ⟨DockerError.invalidOutputSpec, by
            simp only [validate_task_outputs]
            rw [if_neg ht, if_pos hn]⟩
      · have hstep : validate_task_outputs ((name, spec) :: rest) =
            validate_task_outputs rest := by
          simp only [validate_task_outputs]
          rw [if_neg ht, if_neg hn]
        have hnotbad : ¬ specBadOutput name spec := by
          intro hbad
          rcases hbad with ⟨h1, _⟩ | ⟨_, h2⟩
          · exact ht h1
          · exact hn h2
        rw [hstep, ih]
        constructor
        · rintro ⟨q, hq, hqbad⟩
          exact ⟨q, List.mem_cons_of_mem _ hq, hqbad⟩
        · rintro ⟨q, hq, hqbad⟩
          rcases List.mem_cons.mp hq with rfl | hq2
          · exact absurd hqbad hnotbad
          · exact ⟨q, hq2, hqbad⟩

/-- C4: for a declared filepath-target input whose resolved host path
lies under the temp directory (host path = tempdir ++ `/` ++ suffix,
with a clean suffix and a normal temp directory), the transformation
substitutes the in-container mount root joined with the suffix, and
joining that suffix back onto the temp directory reproduces the
original host path. -/
theorem transform_path_roundtrip (inputs : Slots) (pre post : List TaskInput)
    (ti : TaskInput) (id : String) (t s : List Char)
    (hpre : ∀ ti2 ∈ pre, tiId ti2 ≠ some id)
    (hti : tiId ti = some id) (htar : ti.target = some "filepath")
    (hlk : List.lookup id inputs = some (String.mk (t ++ '/' :: s)))
    (hs : ∀ g ∈ splitChar '/' s, CleanComp g)
    (ht1 : t ≠ []) (ht2 : t.getLast? ≠ some '/') :
    transform_path inputs (pre ++ ti :: post) id (String.mk t) =
      Except.ok (String.mk ("/data".data ++ '/' :: s)) ∧
    pyJoinL t s = t ++ '/' :: s := by
  constructor
  · rw [transform_path_append inputs pre (ti :: post) id (String.mk t) hpre]
    simp only [transform_path, hti, ite_true, hlk, htar]
    have hr : relpath (String.mk (t ++ '/' :: s)) (String.mk t) = String.mk s := by
      unfold relpath
      exact congrArg String.mk (relpath_under t s hs)
    rw [hr]
    have hj : pyJoin "/data" (String.mk s) = String.mk ("/data".data ++ '/' :: s) := by
      unfold pyJoin
      refine congrArg String.mk ?_
      unfold pyJoinL
      have h1 : ¬((String.mk s).data.head? = some '/') := clean_head_ne_slash s hs
      have h2 : ¬(("/data".data : List Char) = [] ∨
          ("/data".data : List Char).getLast? = some '/') := by decide
      rw [if_neg h1, if_neg h2]
    rw [hj]
  · exact pyJoinL_eq t s ht1 ht2 (clean_head_ne_slash s hs)

/-- C4 (witness): input `foo` resolved to `/tmp/job1/in.txt` under
temp directory `/tmp/job1` is substituted as `/data/in.txt`, and
re-joining `in.txt` onto `/tmp/job1` gives back the host path. -/
theorem transform_path_roundtrip_wit :
    transform_path [("foo", "/tmp/job1/in.txt")]
        [⟨some "foo", none, some "filepath"⟩] "foo" "/tmp/job1" =
      Except.ok "/data/in.txt" ∧
    pyJoinL "/tmp/job1".data "in.txt".data = "/tmp/job1/in.txt".data := by
  have h := transform_path_roundtrip [("foo", "/tmp/job1/in.txt")] [] []
    ⟨some "foo", none, some "filepath"⟩ "foo" "/tmp/job1".data "in.txt".data
    (fun ti2 h2 => absurd h2 (List.not_mem_nil ti2))
    (by decide) (by decide) (by decide) (by decide) (by decide) (by decide)
  exact ⟨h.1, h.2⟩

/-- C5: for every filepath-target output, extraction computes the
effective path (declared path or the output id), roots it under the
data mount when relative, rewrites the data-mount prefix to the host
temp directory (all of which `hostOutputPath` performs), raises the
missing-output error exactly when the resulting host path does not
exist, and otherwise writes that host path into the output's slot. -/
theorem extract_outputs_correct (tempdir : String) (pathExists : String → Bool)
    (task_outputs : List (String × OutSpec)) (outputs : Slots)
    (hnd : (task_outputs.map Prod.fst).Nodup) :
    ((∀ p ∈ task_outputs, p.2.target = some "filepath" →
        pathExists (hostOutputPath tempdir p.1 p.2) = true) →
      (extract_outputs tempdir pathExists task_outputs outputs).2 = none ∧
      ∀ p ∈ task_outputs, p.2.target = some "filepath" →
        List.lookup p.1 (extract_outputs tempdir pathExists task_outputs outputs).1 =
          some (hostOutputPath tempdir p.1 p.2)) ∧
    (∀ outs e, extract_outputs tempdir pathExists task_outputs outputs = (outs, some e) →
      ∃ p ∈ task_outputs, p.2.target = some "filepath" ∧
        pathExists (hostOutputPath tempdir p.1 p.2) = false ∧
        e = DockerError.missingOutput (hostOutputPath tempdir p.1 p.2)) ∧
    ((∃ p ∈ task_outputs, p.2.target = some "filepath" ∧
        pathExists (hostOutputPath tempdir p.1 p.2) = false) →
      (extract_outputs tempdir pathExists task_outputs outputs).2 ≠ none) := by
  induction task_outputs generalizing outputs with
  | nil =>
    refine ⟨fun _ => ⟨rfl, fun p hp => absurd hp (List.not_mem_nil p)⟩, ?_, ?_⟩
    · intro outs e h
      exact absurd (congrArg Prod.snd h) (by simp [extract_outputs])
    · rintro ⟨p, hp, _⟩
      exact absurd hp (List.not_mem_nil p)
  | cons q rest ih =>
    obtain ⟨name, tout⟩ := q
    simp only [List.map_cons, List.nodup_cons] at hnd
    obtain ⟨hname, hndrest⟩ := hnd
    refine ⟨?_, ?_, ?_⟩
    · intro hall
      by_cases ht : tout.target = some "filepath"
      · have hex : pathExists (hostOutputPath tempdir name tout) = true :=
          hall (name, tout) (List.mem_cons_self _ _) ht
        have heq : extract_outputs tempdir pathExists ((name, tout) :: rest) outputs =
            extract_outputs tempdir pathExists rest
              (setSlot outputs name (hostOutputPath tempdir name tout)) := by
          simp only [extract_outputs]
          rw [if_pos ht, if_pos hex]
        rw [heq]
        have ihr := (ih (setSlot outputs name (hostOutputPath tempdir name tout))
            hndrest).1
          (fun p hp hpt => hall p (List.mem_cons_of_mem _ hp) hpt)
        refine ⟨ihr.1, ?_⟩
        intro p hp hpt
        rcases List.mem_cons.mp hp with rfl | hp2
        · rw [extract_outputs_lookup_not_mem tempdir pathExists rest _ name hname]
          exact lookup_setSlot_self outputs name _
        · exact ihr.2 p hp2 hpt
      · have heq : extract_outputs tempdir pathExists ((name, tout) :: rest) outputs =
            extract_outputs tempdir pathExists rest outputs := by
          simp only [extract_outputs]
          rw [if_neg ht]
        rw [heq]
        have ihr := (ih outputs hndrest).1
          (fun p hp hpt => hall p (List.mem_cons_of_mem _ hp) hpt)
        refine ⟨ihr.1, ?_⟩
        intro p hp hpt
        rcases List.mem_cons.mp hp with rfl | hp2
        · exact absurd hpt ht
        · exact ihr.2 p hp2 hpt
    · intro outs e h
      by_cases ht : tout.target = some "filepath"
      · by_cases hex : pathExists (hostOutputPath tempdir name tout) = true
        · have heq : extract_outputs tempdir pathExists ((name, tout) :: rest) outputs =
              extract_outputs tempdir pathExists rest
                (setSlot outputs name (hostOutputPath tempdir name tout)) := by
            simp only [extract_outputs]
            rw [if_pos ht, if_pos hex]
          rw [heq] at h
          obtain ⟨p, hp, h1, h2, h3⟩ :=
            (ih (setSlot outputs name (hostOutputPath tempdir name tout))
              hndrest).2.1 outs e h
          exact ⟨p, List.mem_cons_of_mem _ hp, h1, h2, h3⟩
        · have heq : extract_outputs tempdir pathExists ((name, tout) :: rest) outputs =
              (outputs, some (DockerError.missingOutput
                (hostOutputPath tempdir name tout))) := by
            simp only [extract_outputs]
            rw [if_pos ht, if_neg hex]
          rw [heq] at h
          injection h with h1 h2
          injection h2 with h3
          exact ⟨(name, tout), List.mem_cons_self _ _, ht, by simpa using hex, h3.symm⟩
      · have heq : extract_outputs tempdir pathExists ((name, tout) :: rest) outputs =
            extract_outputs tempdir pathExists rest outputs := by
          simp only [extract_outputs]
          rw [if_neg ht]
        rw [heq] at h
        obtain ⟨p, hp, h1, h2, h3⟩ := (ih outputs hndrest).2.1 outs e h
        exact ⟨p, List.mem_cons_of_mem _ hp, h1, h2, h3⟩
    · rintro ⟨p, hp, hpt, hpe⟩
      by_cases ht : tout.target = some "filepath"
      · by_cases hex : pathExists (hostOutputPath tempdir name tout) = true
        · have heq : extract_outputs tempdir pathExists ((name, tout) :: rest) outputs =
              extract_outputs tempdir pathExists rest
                (setSlot outputs name (hostOutputPath tempdir name tout)) := by
            simp only [extract_outputs]
            rw [if_pos ht, if_pos hex]
          rw [heq]
          rcases List.mem_cons.mp hp with rfl | hp2
          · exact absurd hex (by simp [hpe])
          · exact (ih (setSlot outputs name (hostOutputPath tempdir name tout))
              hndrest).2.2 ⟨p, hp2, hpt, hpe⟩
        · have heq : extract_outputs tempdir pathExists ((name, tout) :: rest) outputs =
              (outputs, some (DockerError.missingOutput
                (hostOutputPath tempdir name tout))) := by
            simp only [extract_outputs]
            rw [if_pos ht, if_neg hex]
          rw [heq]
          simp
      · have heq : extract_outputs tempdir pathExists ((name, tout) :: rest) outputs =
            extract_outputs tempdir pathExists rest outputs := by
          simp only [extract_outputs]
          rw [if_neg ht]
        rw [heq]
        rcases List.mem_cons.mp hp with rfl | hp2
        · exact absurd hpt ht
        · exact (ih outputs hndrest).2.2 ⟨p, hp2, hpt, hpe⟩

/-- C5 (witness): one filepath output `result` with declared relative
path `out.csv` under temp directory `/tmp/job1`: with the host file
present, extraction succeeds and writes `/tmp/job1/out.csv`; with it
absent, extraction raises the missing-output error for that path. -/
theorem extract_outputs_correct_wit :
    (extract_outputs "/tmp/job1" (fun _ => true)
        [("result", ⟨some "filepath", some "out.csv"⟩)] [("result", "")]).2 = none ∧
    List.lookup "result" (extract_outputs "/tmp/job1" (fun _ => true)
        [("result", ⟨some "filepath", some "out.csv"⟩)] [("result", "")]).1 =
      some "/tmp/job1/out.csv" ∧
    (extract_outputs "/tmp/job1" (fun _ => false)
        [("result", ⟨some "filepath", some "out.csv"⟩)] [("result", "")]).2 ≠ none ∧
    (extract_outputs "/tmp/job1" (fun _ => false)
        [("result", ⟨some "filepath", some "out.csv"⟩)] [("result", "")]).2 =
      some (DockerError.missingOutput "/tmp/job1/out.csv") := by
  have h := (extract_outputs_correct "/tmp/job1" (fun _ => true)
      [("result", ⟨some "filepath", some "out.csv"⟩)] [("result", "")] (by decide)).1
    (fun p hp _ => rfl)
  have h2 := (extract_outputs_correct "/tmp/job1" (fun _ => false)
      [("result", ⟨some "filepath", some "out.csv"⟩)] [("result", "")] (by decide)).2.2
    ⟨("result", ⟨some "filepath", some "out.csv"⟩), by simp, rfl, rfl⟩
  exact ⟨h.1, h.2 ("result", ⟨some "filepath", some "out.csv"⟩) (by simp) rfl, h2, by decide⟩

/-- C9: the garbage collector is started with
`FORCE_CONTAINER_REMOVAL=1`, `STATE_DIR` and `PID_DIR` both the
scratch directory, `GRACE_PERIOD_SECONDS` the configured timeout
(default 3600), and `EXCLUDE_FROM_GC` the path of a newline-delimited
exclusion file written inside the scratch directory exactly when the
configured exclusion list is non-empty. -/
theorem docker_gc_env_contract (cfg : GCConfig) (tempdir : String) (g : GCResult)
    (h : docker_gc cfg tempdir true true = Except.ok g) :
    List.lookup "FORCE_CONTAINER_REMOVAL" g.env = some "1" ∧
    List.lookup "STATE_DIR" g.env = some tempdir ∧
    List.lookup "PID_DIR" g.env = some tempdir ∧
    List.lookup "GRACE_PERIOD_SECONDS" g.env = some (cfg.cache_timeout.getD "3600") ∧
    (excludedImages cfg ≠ [] →
      List.lookup "EXCLUDE_FROM_GC" g.env = some (pyJoin tempdir ".docker-gc-exclude") ∧
      g.excludeFile =
        some (pyJoin tempdir ".docker-gc-exclude", joinNL (excludedImages cfg) ++ "\n")) ∧
    (excludedImages cfg = [] →
      List.lookup "EXCLUDE_FROM_GC" g.env = none ∧ g.excludeFile = none) := by
  by_cases hex : excludedImages cfg = []
  · have heq : docker_gc cfg tempdir true true =
        Except.ok ⟨[("FORCE_CONTAINER_REMOVAL", "1"), ("STATE_DIR", tempdir),
          ("PID_DIR", tempdir),
          ("GRACE_PERIOD_SECONDS", cfg.cache_timeout.getD "3600")], none⟩ := by
      simp [docker_gc, hex]
    rw [heq] at h
    obtain rfl : (⟨[("FORCE_CONTAINER_REMOVAL", "1"), ("STATE_DIR", tempdir),
        ("PID_DIR", tempdir),
        ("GRACE_PERIOD_SECONDS", cfg.cache_timeout.getD "3600")], none⟩ : GCResult) = g := by
      injection h
    exact ⟨rfl, rfl, rfl, rfl, fun hne => absurd hex hne, fun _ => ⟨rfl, rfl⟩⟩
  · have heq : docker_gc cfg tempdir true true =
        Except.ok ⟨[("FORCE_CONTAINER_REMOVAL", "1"), ("STATE_DIR", tempdir),
          ("PID_DIR", tempdir),
          ("GRACE_PERIOD_SECONDS", cfg.cache_timeout.getD "3600"),
          ("EXCLUDE_FROM_GC", pyJoin tempdir ".docker-gc-exclude")],
          some (pyJoin tempdir ".docker-gc-exclude", joinNL (excludedImages cfg) ++ "\n")⟩ := by
      simp [docker_gc, hex]
    rw [heq] at h
    obtain rfl : (⟨[("FORCE_CONTAINER_REMOVAL", "1"), ("STATE_DIR", tempdir),
        ("PID_DIR", tempdir),
        ("GRACE_PERIOD_SECONDS", cfg.cache_timeout.getD "3600"),
        ("EXCLUDE_FROM_GC", pyJoin tempdir ".docker-gc-exclude")],
        some (pyJoin tempdir ".docker-gc-exclude",
          joinNL (excludedImages cfg) ++ "\n")⟩ : GCResult) = g := by
      injection h
    exact ⟨rfl, rfl, rfl, rfl, fun _ => ⟨rfl, rfl⟩, fun he => absurd he hex⟩

/-- C9 (witness): with `cache_timeout = "1234"` and
`exclude_images = "img1,img2"`, the GC subprocess environment and the
exclusion file have the contracted contents. -/
theorem docker_gc_env_contract_wit :
    docker_gc ⟨some "1234", some "img1,img2"⟩ "/scratch" true true =
      Except.ok gcSample ∧
    List.lookup "FORCE_CONTAINER_REMOVAL" gcSample.env = some "1" ∧
    List.lookup "STATE_DIR" gcSample.env = some "/scratch" ∧
    List.lookup "PID_DIR" gcSample.env = some "/scratch" ∧
    List.lookup "GRACE_PERIOD_SECONDS" gcSample.env = some "1234" ∧
    List.lookup "EXCLUDE_FROM_GC" gcSample.env = some "/scratch/.docker-gc-exclude" ∧
    gcSample.excludeFile = some ("/scratch/.docker-gc-exclude", "img1\nimg2\n") := by
  have h : docker_gc ⟨some "1234", some "img1,img2"⟩ "/scratch" true true =
      Except.ok gcSample := by decide
  have hc := docker_gc_env_contract ⟨some "1234", some "img1,img2"⟩ "/scratch" gcSample h
  have hcc := hc.2.2.2.2.1 (by decide)
  exact ⟨h, hc.1, hc.2.1, hc.2.2.1, hc.2.2.2.1, hcc.1, hcc.2⟩

/-- C2: when the container process exits with a non-zero status,
`run` raises the container-execution error carrying that exit code,
the GC scratch directory is not created, the reclaimer is not
started, and the output slots are exactly as `run_process` left them
(no filepath output slot is written). -/
theorem run_container_failure_no_gc (task : Task) (inputs outputs : Slots)
    (task_inputs : List TaskInput) (task_outputs : List (String × OutSpec))
    (tempdir : String) (w : World) (args : List String)
    (hpull : ¬(task.pull_image.getD true = true ∧ w.pullReturncode ≠ 0))
    (hexp : expand_args (task.container_args.getD []) inputs task_inputs tempdir =
      Except.ok args)
    (hrc : (w.runProcess (runCommand task args tempdir w.uid)
        (preinit_outputs task_outputs outputs).1
        (preinit_outputs task_outputs outputs).2.2
        (preinit_outputs task_outputs outputs).2.1).2 ≠ 0) :
    run task inputs outputs task_inputs task_outputs tempdir w =
      (⟨false, false, none, none,
        (w.runProcess (runCommand task args tempdir w.uid)
          (preinit_outputs task_outputs outputs).1
          (preinit_outputs task_outputs outputs).2.2
          (preinit_outputs task_outputs outputs).2.1).1⟩,
       some (DockerError.containerExecution
        (w.runProcess (runCommand task args tempdir w.uid)
          (preinit_outputs task_outputs outputs).1
          (preinit_outputs task_outputs outputs).2.2
          (preinit_outputs task_outputs outputs).2.1).2)) := by
  unfold run
  rw [if_neg hpull, hexp]
  simp only [hrc, ne_eq, not_false_iff, ite_true]

/-- C2 (witness): a container exiting with code 2 on empty inputs and
outputs yields the container-execution error with untouched effects. -/
theorem run_container_failure_no_gc_wit :
    run sampleTask [] [] [] [] "/tmp" sampleWorld =
      (⟨false, false, none, none, []⟩, some (DockerError.containerExecution 2)) :=
  run_container_failure_no_gc sampleTask [] [] [] [] "/tmp" sampleWorld []
    (by decide) rfl (by decide)

/-- C10: an absolute effective path equal to `/data` itself (or one
like `/datax` extending the mount name without a separator) is
rejected by `validate_task_outputs`, since acceptance requires the
prefix `/data/` with the trailing slash. -/
theorem validate_rejects_bare_data_root :
    validate_task_outputs [("out", ⟨some "filepath", some "/data"⟩)] =
      Except.error DockerError.invalidOutputSpec ∧
    validate_task_outputs [("out", ⟨some "filepath", some "/datax"⟩)] =
      Except.error DockerError.invalidOutputSpec := by decide

end GWDocker
